import Mathlib

/-!
Verification development for the shade simulator's occlusion core.

The Go source is embedded shallowly over exact rationals: float64
arithmetic in the geometry kernel, transmissivity model and occlusion
loop is modelled as arithmetic in ℚ, so that every definition is
computable and claims can be checked on concrete inputs.  The external
solar ephemeris (the suncalc library behind GetSunPos) and the
trigonometric ray construction SunPos.Ray, which involve sin/cos over
floats, are treated as parameters of the occlusion pass, exactly as the
design treats the ephemeris as a pluggable function; all theorems about
the occlusion pass quantify over those parameters.  The insolation
formula GlobalIntensity is modelled over ℝ since it involves cos and
real powers.
-/

namespace Shade

/-- Rational 3-vector, modelling gonum's r3.Vec (float64 coordinates
embedded as exact rationals). -/
structure Vec3 where
  x : ℚ
  y : ℚ
  z : ℚ
deriving DecidableEq

/-- r3.Dot. -/
def dot (a b : Vec3) : ℚ := a.x * b.x + a.y * b.y + a.z * b.z

/-- r3.Cross. -/
def cross (a b : Vec3) : Vec3 :=
  ⟨a.y * b.z - a.z * b.y, a.z * b.x - a.x * b.z, a.x * b.y - a.y * b.x⟩

/-- r3.Sub. -/
def vsub (a b : Vec3) : Vec3 := ⟨a.x - b.x, a.y - b.y, a.z - b.z⟩

/-- Ray from ray.go: origin plus direction. -/
structure Ray where
  Origin : Vec3
  Dir : Vec3
deriving DecidableEq

/-- r3.Triangle: the three vertices tri[0], tri[1], tri[2]. -/
structure Triangle where
  v0 : Vec3
  v1 : Vec3
  v2 : Vec3
deriving DecidableEq

/-- The epsilon constant of IntersectTriangle (0.0000001 in ray.go). -/
def epsilon : ℚ := 1 / 10000000

/-- edge1 := r3.Sub(tri[1], tri[0]) in IntersectTriangle. -/
def edge1 (tri : Triangle) : Vec3 := vsub tri.v1 tri.v0

/-- edge2 := r3.Sub(tri[2], tri[0]) in IntersectTriangle. -/
def edge2 (tri : Triangle) : Vec3 := vsub tri.v2 tri.v0

/-- h := r3.Cross(r.Dir, edge2) in IntersectTriangle. -/
def hVec (r : Ray) (tri : Triangle) : Vec3 := cross r.Dir (edge2 tri)

/-- det := r3.Dot(edge1, h) in IntersectTriangle. -/
def detOf (r : Ray) (tri : Triangle) : ℚ := dot (edge1 tri) (hVec r tri)

/-- s := r3.Sub(r.Origin, tri[0]) in IntersectTriangle. -/
def sVec (r : Ray) (tri : Triangle) : Vec3 := vsub r.Origin tri.v0

/-- u := invDet * r3.Dot(s, h) in IntersectTriangle, with
invDet = 1/det. -/
def uOf (r : Ray) (tri : Triangle) : ℚ := (detOf r tri)⁻¹ * dot (sVec r tri) (hVec r tri)

/-- q := r3.Cross(s, edge1) in IntersectTriangle. -/
def qVec (r : Ray) (tri : Triangle) : Vec3 := cross (sVec r tri) (edge1 tri)

/-- v := invDet * r3.Dot(r.Dir, q) in IntersectTriangle. -/
def vOf (r : Ray) (tri : Triangle) : ℚ := (detOf r tri)⁻¹ * dot r.Dir (qVec r tri)

/-- t := invDet * r3.Dot(edge2, q) in IntersectTriangle. -/
def tOf (r : Ray) (tri : Triangle) : ℚ := (detOf r tri)⁻¹ * dot (edge2 tri) (qVec r tri)

/-- Ray.IntersectTriangle from ray.go (Möller–Trumbore): the chain of
early returns is rendered as a chain of conditionals over the scalar
quantities named exactly as the Go locals. -/
def Ray.IntersectTriangle (r : Ray) (tri : Triangle) : ℚ × Bool :=
  if -epsilon < detOf r tri ∧ detOf r tri < epsilon then (0, false)
  else if uOf r tri < 0 ∨ uOf r tri > 1 then (0, false)
  else if vOf r tri < 0 ∨ uOf r tri + vOf r tri > 1 then (0, false)
  else if tOf r tri < epsilon then (0, false)
  else (tOf r tri, true)

/-- Mesh from ray.go: welded vertices and index triples. -/
structure Mesh where
  Verts : List Vec3
  Tris : List (ℕ × ℕ × ℕ)
deriving DecidableEq

/-- The triangle assembled from a mesh's vertex array for one index
triple (the inner loop of IntersectMesh); out-of-range indices are given
the zero vector, which never occurs under the in-range hypotheses of the
theorems below. -/
def triAt (m : Mesh) (idxs : ℕ × ℕ × ℕ) : Triangle :=
  ⟨m.Verts.getD idxs.1 ⟨0, 0, 0⟩, m.Verts.getD idxs.2.1 ⟨0, 0, 0⟩, m.Verts.getD idxs.2.2 ⟨0, 0, 0⟩⟩

/-- One iteration of the loop in Ray.IntersectMesh: skip misses, track
the least distance seen so far in (minT, haveMin). -/
def meshStep (r : Ray) (m : Mesh) (st : ℚ × Bool) (idxs : ℕ × ℕ × ℕ) : ℚ × Bool :=
  let res := r.IntersectTriangle (triAt m idxs)
  if !res.2 then st
  else if !st.2 || decide (res.1 < st.1) then (res.1, true)
  else st

/-- Ray.IntersectMesh from ray.go. -/
def Ray.IntersectMesh (r : Ray) (m : Mesh) : ℚ × Bool :=
  m.Tris.foldl (meshStep r m) (0, false)

/-- The slice of Go's time.Time that this model consumes: transmissivity
functions look at YearDay, everything else about the timestamp is opaque
to the core (the ephemeris parameter may look at all fields). -/
structure GoTime where
  year : ℤ
  yearDay : ℕ
  minuteOfDay : ℕ
deriving DecidableEq

/-- SunPos from sun.go. -/
structure SunPos where
  T : GoTime
  Altitude : ℚ
  Azimuth : ℚ
deriving DecidableEq

/-- SunLight from sun.go (SunPos is an embedded field in Go). -/
structure SunLight where
  sunPos : SunPos
  Light : ℚ
  Foliage : Bool
deriving DecidableEq

/-- shadeLayer from model.go. -/
structure ShadeLayer where
  mesh : Mesh
  transmissivity : GoTime → ℚ
  foliage : Bool

/-- ShadeModel from model.go. -/
structure ShadeModel where
  lat : ℚ
  lon : ℚ
  elevationFeet : ℚ
  layers : List ShadeLayer

/-- The seasonal foliage transmissivity installed by AddFoliage
(model.go), as a function of date.YearDay(); the Go switch with its
default-fallthrough-to-winter first branch is an if chain on the
breakpoints Feb28 = 59, May31 = 151, Aug31 = 243, Nov30 = 334. -/
def foliageTransmissivity (day : ℕ) : ℚ :=
  if day ≤ 59 then 0.5
  else if day ≤ 151 then 0.5 + ((day : ℚ) - 59) / (151 - 59) * (0.05 - 0.5)
  else if day ≤ 243 then 0.05
  else if day ≤ 334 then 0.05 + ((day : ℚ) - 243) / (334 - 243) * (0.5 - 0.05)
  else 0.5

/-- The layer appended by AddBuildings: constant transmissivity 0,
foliage flag false.  Reading the mesh from the STL path is I/O performed
before the layer is built, so the mesh is a direct argument here. -/
def buildingLayer (mesh : Mesh) : ShadeLayer := ⟨mesh, fun _ => 0, false⟩

/-- The layer appended by AddFoliage: the seasonal transmissivity,
foliage flag true. -/
def foliageLayer (mesh : Mesh) : ShadeLayer :=
  ⟨mesh, fun date => foliageTransmissivity date.yearDay, true⟩

/-- AddBuildings from model.go (addLayer appends to m.layers). -/
def AddBuildings (m : ShadeModel) (mesh : Mesh) : ShadeModel :=
  ⟨m.lat, m.lon, m.elevationFeet, m.layers ++ [buildingLayer mesh]⟩

/-- AddFoliage from model.go (addLayer appends to m.layers). -/
def AddFoliage (m : ShadeModel) (mesh : Mesh) : ShadeModel :=
  ⟨m.lat, m.lon, m.elevationFeet, m.layers ++ [foliageLayer mesh]⟩

/-- A model whose layers all came from AddBuildings or AddFoliage calls:
every layer is a building layer or a foliage layer over its mesh. -/
def FromAddCalls (m : ShadeModel) : Prop :=
  ∀ l ∈ m.layers, l = buildingLayer l.mesh ∨ l = foliageLayer l.mesh

/-- One iteration of the layer loop in computeSunLight (sun.go): state
is (light, building, foliage).  The light multiplication is skipped when
hit is false or light is already exactly 0, exactly as in the source. -/
def layerStep (sunRay : Ray) (t : GoTime) (st : ℚ × Bool × Bool) (l : ShadeLayer) :
    ℚ × Bool × Bool :=
  let hit := (sunRay.IntersectMesh l.mesh).2
  let light := if hit = true ∧ st.1 ≠ 0 then st.1 * l.transmissivity t else st.1
  let bf : Bool × Bool :=
    if hit then (if l.foliage then (st.2.1, true) else (true, st.2.2)) else st.2
  (light, bf.1, bf.2)

/-- The body of the per-timestamp loop of computeSunLight (sun.go):
getSunPos abstracts the external suncalc-based GetSunPos, mkRay
abstracts the trigonometric SunPos.Ray construction. -/
def sunLightAt (getSunPos : GoTime → ℚ → ℚ → SunPos) (mkRay : SunPos → Vec3 → Ray)
    (m : ShadeModel) (testPos : Vec3) (t : GoTime) : SunLight :=
  let sunPos := getSunPos t m.lat m.lon
  if sunPos.Altitude < 0 then ⟨sunPos, 0, false⟩
  else
    let sunRay := mkRay sunPos testPos
    let st := m.layers.foldl (layerStep sunRay t) (1, false, false)
    ⟨sunPos, st.1, st.2.2 && !st.2.1⟩

/-- computeSunLight from sun.go: one SunLight per timestamp, in input
order. -/
def computeSunLight (getSunPos : GoTime → ℚ → ℚ → SunPos) (mkRay : SunPos → Vec3 → Ray)
    (m : ShadeModel) (testPos : Vec3) (times : List GoTime) : List SunLight :=
  times.map (sunLightAt getSunPos mkRay m testPos)

/-- Whether a layer's mesh occludes the sun ray (the hit component of
IntersectMesh in the layer loop). -/
def hitLayer (sunRay : Ray) (l : ShadeLayer) : Bool := (sunRay.IntersectMesh l.mesh).2

/-- The product of the transmissivities of the layers the ray hits. -/
def lightProduct (sunRay : Ray) (t : GoTime) (ls : List ShadeLayer) : ℚ :=
  ((ls.filter (hitLayer sunRay)).map (fun l => l.transmissivity t)).prod

/-- Whether the ray hits some non-foliage (building) layer. -/
def anyBuildingHit (sunRay : Ray) (ls : List ShadeLayer) : Bool :=
  ls.any fun l => hitLayer sunRay l && !l.foliage

/-- Whether the ray hits some foliage layer. -/
def anyFoliageHit (sunRay : Ray) (ls : List ShadeLayer) : Bool :=
  ls.any fun l => hitLayer sunRay l && l.foliage

/-- A one-triangle mesh lying in the plane z = 1 that contains the point
(0, 0, 1): the upward ray from the origin hits it. -/
def mesh1 : Mesh := ⟨[⟨-1, -1, 1⟩, ⟨3, -1, 1⟩, ⟨-1, 3, 1⟩], [(0, 1, 2)]⟩

/-- The origin, used as concrete test point. -/
def origin0 : Vec3 := ⟨0, 0, 0⟩

/-- A concrete timestamp: day-of-year 100, noon. -/
def t0 : GoTime := ⟨2022, 100, 720⟩

/-- A concrete ephemeris placing the sun at altitude 45. -/
def eph45 : GoTime → ℚ → ℚ → SunPos := fun t _ _ => ⟨t, 45, 180⟩

/-- A concrete ephemeris placing the sun below the horizon. -/
def ephNeg : GoTime → ℚ → ℚ → SunPos := fun t _ _ => ⟨t, -10, 180⟩

/-- A concrete ray builder: a ray straight up from the test point. -/
def mkRayUp : SunPos → Vec3 → Ray := fun _ p => ⟨p, ⟨0, 0, 1⟩⟩

/-- A model with one building layer and one foliage layer, both over
mesh1. -/
def modelBF : ShadeModel := ⟨42, -71, 200, [buildingLayer mesh1, foliageLayer mesh1]⟩

/-- A model with a single foliage layer over mesh1. -/
def modelF : ShadeModel := ⟨42, -71, 200, [foliageLayer mesh1]⟩

/-- The triangle with its orientation reversed (second and third vertex
swapped), so a ray strikes the opposite face. -/
def flipTri (tri : Triangle) : Triangle := ⟨tri.v0, tri.v2, tri.v1⟩

/-- The concrete triangle of mesh1, in the plane z = 1. -/
def tri1 : Triangle := ⟨⟨-1, -1, 1⟩, ⟨3, -1, 1⟩, ⟨-1, 3, 1⟩⟩

/-- An upward ray from the origin; it hits tri1 at distance 1. -/
def rayUp : Ray := ⟨⟨0, 0, 0⟩, ⟨0, 0, 1⟩⟩

/-- A horizontal ray, parallel to the plane of tri1. -/
def rayPar : Ray := ⟨⟨0, 0, 0⟩, ⟨1, 0, 0⟩⟩

/-- An upward ray whose origin already lies in the plane of tri1, so the
line intersection has parameter t = 0 below epsilon. -/
def rayAt1 : Ray := ⟨⟨0, 0, 1⟩, ⟨0, 0, 1⟩⟩

/-- The hit flag of one triangle of a mesh, as tested inside
IntersectMesh. -/
def triHit (r : Ray) (m : Mesh) (i : ℕ × ℕ × ℕ) : Bool := (r.IntersectTriangle (triAt m i)).2

/-- The intersection distance of one triangle of a mesh. -/
def triDist (r : Ray) (m : Mesh) (i : ℕ × ℕ × ℕ) : ℚ := (r.IntersectTriangle (triAt m i)).1

/-- The zenith angle of the insolation model (90 minus altitude),
following the specification text. -/
noncomputable def specZenith (altitude : ℝ) : ℝ := 90 - altitude

/-- The Kasten-Young air mass approximation, following the specification
text. -/
noncomputable def specAirMass (zenith : ℝ) : ℝ :=
  1 / (Real.cos (zenith * (Real.pi / 180)) + 0.50572 * (96.07995 - zenith) ^ (-1.6364 : ℝ))

/-- The Meinel direct-component formula, following the specification
text, with h the elevation in kilometers. -/
noncomputable def specIDirect (airMass h : ℝ) : ℝ :=
  1353 * ((1 - 0.14 * h) * (0.7 : ℝ) ^ (airMass ^ (0.678 : ℝ)) + 0.14 * h)

/-- The insolation model as the specification words it: 0 below the
horizon, otherwise ambient 0.1 plus light, scaled by the direct
component. -/
noncomputable def specGlobalIntensity (altitude light elevationFeet : ℝ) : ℝ :=
  if altitude < 0 then 0
  else (0.1 + light) * specIDirect (specAirMass (specZenith altitude)) (elevationFeet * 0.0003048)

/-- GlobalIntensity from sun.go, translated with the same local
structure as the Go method body; p.Altitude and p.Light are the first
two arguments. -/
noncomputable def GlobalIntensity (altitude light elevationFeet : ℝ) : ℝ :=
  if altitude < 0 then 0
  else
    let zenithAngle := 90 - altitude
    let airMass := 1 / (Real.cos (zenithAngle * (Real.pi / 180)) +
      0.50572 * (96.07995 - zenithAngle) ^ (-1.6364 : ℝ))
    let h := elevationFeet * 0.0003048
    let a : ℝ := 0.14
    let iDirect := 1353 * ((1 - a * h) * (0.7 : ℝ) ^ (airMass ^ (0.678 : ℝ)) + a * h)
    (0.1 + light) * iDirect

/-- The arguments hashed by the MakeCacheKey call in IntensityOverYear
(model.go): the layers' meshes, the latitude, the longitude, the test
point and the timestamp list.  MakeCacheKey feeds the gob encoding of
exactly these values to SHA-256; following the specification's reading
of the hash as collision-free, the key is modelled as the tuple of the
hashed arguments themselves.  The layers' transmissivity functions and
foliage flags are not among the hashed arguments. -/
def IntensityOverYearKey (m : ShadeModel) (testPos : Vec3) (times : List GoTime) :
    List Mesh × ℚ × ℚ × Vec3 × List GoTime :=
  (m.layers.map (fun l => l.mesh), m.lat, m.lon, testPos, times)

/-- A model with a single building layer over mesh1. -/
def modelB1 : ShadeModel := ⟨42, -71, 200, [buildingLayer mesh1]⟩

/-- The outcome of opening a cache entry's backing file: the entry can
be missing, opening can fail with some other I/O error, or it yields the
stored blob. -/
inductive OpenResult (β : Type) where
  | missing : OpenResult β
  | ioError : OpenResult β
  | ok : β → OpenResult β
deriving DecidableEq

/-- CacheKey from the cache source file: the hex-encoded digest. -/
structure CacheKey where
  key : String
deriving DecidableEq

/-- The path helper of CacheKey (filepath.Join of .cache and the key). -/
def CacheKey.path (ck : CacheKey) : String := ".cache/" ++ ck.key

/-- Load from the cache source file.  The file system is a function from
paths to open outcomes and the gob decoder a partial function on blobs;
the pair returned is (the value delivered through out, the found flag).
A failed open (missing entry or I/O error) and a failed decode (schema
mismatch or corruption) both return false without raising. -/
def CacheKey.Load {β α : Type} (ck : CacheKey) (fs : String → OpenResult β)
    (decode : β → Option α) : Option α × Bool :=
  match fs ck.path with
  | .missing => (none, false)
  | .ioError => (none, false)
  | .ok blob =>
    match decode blob with
    | none => (none, false)
    | some v => (some v, true)

/-- The success path of Save from the cache source file: the encoded
value is written at the key's path (failures to create the directory or
file are logged and leave the store unchanged; they are outside Load's
contract). -/
def CacheKey.Save {β α : Type} (ck : CacheKey) (fs : String → OpenResult β)
    (encode : α → β) (val : α) : String → OpenResult β :=
  fun p => if p = ck.path then .ok (encode val) else fs p

/-- A vertex as decoded from one binary STL record in ReadSTL: the raw
IEEE-754 binary32 bit patterns of its three coordinates, exactly the
32-bit words passed to math.Float32frombits. -/
structure Vert32 where
  cx : ℕ
  cy : ℕ
  cz : ℕ
deriving DecidableEq

/-- Whether a binary32 bit pattern denotes NaN: exponent bits all ones
and a nonzero mantissa. -/
def isNaN32 (b : ℕ) : Bool := (b / 2 ^ 23) % 2 ^ 8 == 255 && b % 2 ^ 23 != 0

/-- Whether a binary32 bit pattern denotes a zero (plus or minus). -/
def isZero32 (b : ℕ) : Bool := b % 2 ^ 31 == 0

/-- Go float32 equality on bit patterns: NaN is unequal to everything
including itself, the two zeros are equal to each other, and every other
finite value has a unique pattern, so equality is pattern equality. -/
def f32Eq (a b : ℕ) : Bool :=
  !isNaN32 a && !isNaN32 b && (a == b || (isZero32 a && isZero32 b))

/-- Go equality of [3]float32 map keys: componentwise float32 equality. -/
def vertEq (v w : Vert32) : Bool := f32Eq v.cx w.cx && f32Eq v.cy w.cy && f32Eq v.cz w.cz

/-- One triangle record of the STL body (the normal vector and the
attribute byte count are skipped by the reader). -/
structure STLTri where
  a : Vert32
  b : Vert32
  c : Vert32
deriving DecidableEq

/-- The mesh built by ReadSTL in the STL source file (the Header field,
a plain string trim of the 80-byte header, is elided). -/
structure MeshSTL where
  Verts : List Vert32
  Tris : List (ℕ × ℕ × ℕ)
deriving DecidableEq

/-- The welding state of ReadSTL: m.Verts so far together with vertMap,
the Go hash map modelled as the association list of its entries in
insertion order.  A float32-keyed Go map lookup returns the entry whose
key compares equal (==) to the query; the loop never inserts two keys
that compare equal, so at most one entry can match and the first-match
association-list lookup is faithful. -/
structure WeldState where
  verts : List Vert32
  vertMap : List (Vert32 × ℕ)

/-- vertMap lookup (vertIndex, ok := vertMap[vert]). -/
def lookupVert (entries : List (Vert32 × ℕ)) (v : Vert32) : Option ℕ :=
  (entries.find? (fun e => vertEq e.1 v)).map (fun e => e.2)

/-- One vertex of one record: look it up; if absent, append it to
m.Verts and record its index len(m.Verts) in vertMap. -/
def addVert (s : WeldState) (v : Vert32) : WeldState × ℕ :=
  match lookupVert s.vertMap v with
  | some i => (s, i)
  | none => (⟨s.verts ++ [v], s.vertMap ++ [(v, s.verts.length)]⟩, s.verts.length)

/-- One triangle record: its three vertices in order. -/
def addTri (s : WeldState) (t : STLTri) : WeldState × (ℕ × ℕ × ℕ) :=
  let r0 := addVert s t.a
  let r1 := addVert r0.1 t.b
  let r2 := addVert r1.1 t.c
  (r2.1, (r0.2, r1.2, r2.2))

/-- ReadSTL's main loop over the triangle records. -/
def readTris (s : WeldState) : List STLTri → WeldState × List (ℕ × ℕ × ℕ)
  | [] => (s, [])
  | t :: ts =>
    let r := addTri s t
    let rest := readTris r.1 ts
    (rest.1, r.2 :: rest.2)

/-- ReadSTL from the STL source file, on the decoded triangle records
(binary framing elided; the 4-byte words are decoded exactly as read). -/
def ReadSTL (input : List STLTri) : MeshSTL :=
  let r := readTris ⟨[], []⟩ input
  ⟨r.1.verts, r.2⟩

/-- The input's vertex occurrences in processing order. -/
def flatVerts : List STLTri → List Vert32
  | [] => []
  | t :: ts => t.a :: t.b :: t.c :: flatVerts ts

/-- The output index triples flattened in the same order. -/
def flatIdxs : List (ℕ × ℕ × ℕ) → List ℕ
  | [] => []
  | i :: ts => i.1 :: i.2.1 :: i.2.2 :: flatIdxs ts

/-- The welding contract exactly as the specification words it, for one
input: two vertex occurrences receive the same index iff bit-for-bit
equal, the vertex array holds no two bit-identical entries, and each
occurrence's index points at an entry holding its original bits. -/
def BitWeldSpec (input : List STLTri) : Prop :=
  (∀ p ∈ (flatVerts input).zip (flatIdxs (ReadSTL input).Tris),
    ∀ q ∈ (flatVerts input).zip (flatIdxs (ReadSTL input).Tris),
      (p.2 = q.2 ↔ p.1 = q.1)) ∧
  (ReadSTL input).Verts.Nodup ∧
  (∀ p ∈ (flatVerts input).zip (flatIdxs (ReadSTL input).Tris),
    (ReadSTL input).Verts.getD p.2 ⟨0, 0, 0⟩ = p.1)

/-- An STL input exercising the two float32 corner cases: a negative
zero (bits 2^31) next to a positive zero, and a bit-identical NaN pair
(bits 0x7FC00000); 1065353216 is the pattern of 1.0. -/
def badSTLInput : List STLTri :=
  [⟨⟨2147483648, 0, 0⟩, ⟨0, 0, 0⟩, ⟨1065353216, 0, 0⟩⟩,
    ⟨⟨2143289344, 0, 0⟩, ⟨2143289344, 0, 0⟩, ⟨0, 0, 0⟩⟩]

/-- A well-formed binary32 pattern that is neither NaN nor the negative
zero: on such patterns Go float32 equality coincides with bit equality. -/
def cleanBits (b : ℕ) : Bool := decide (b < 2 ^ 32) && !isNaN32 b && b != 2 ^ 31

/-- A vertex whose three coordinate patterns are all clean. -/
def cleanVert (v : Vert32) : Bool := cleanBits v.cx && cleanBits v.cy && cleanBits v.cz

/-- First index of a vertex comparing float32-equal, scanning the vertex
array directly. -/
def findVert : List Vert32 → Vert32 → Option ℕ
  | [], _ => none
  | w :: ws, v => if vertEq w v then some 0 else (findVert ws v).map (· + 1)

/-- The vertMap contents determined by a vertex array: entry k maps
verts[k] to k, with indices starting at n. -/
def mapOfFrom (n : ℕ) : List Vert32 → List (Vert32 × ℕ)
  | [] => []
  | v :: vs => (v, n) :: mapOfFrom (n + 1) vs

/-- The welding loop with the vertMap replaced by a direct scan of the
vertex array (equivalent by lookup_mapOfFrom, see weldList_pure). -/
def weldPure : List Vert32 → List Vert32 → List Vert32 × List ℕ
  | verts, [] => (verts, [])
  | verts, v :: vs =>
    match findVert verts v with
    | some i => ((weldPure verts vs).1, i :: (weldPure verts vs).2)
    | none => ((weldPure (verts ++ [v]) vs).1, verts.length :: (weldPure (verts ++ [v]) vs).2)

/-- The welding loop over a flat vertex occurrence list. -/
def weldList : WeldState → List Vert32 → WeldState × List ℕ
  | s, [] => (s, [])
  | s, v :: vs =>
    let r := addVert s v
    let rest := weldList r.1 vs
    (rest.1, r.2 :: rest.2)

/-- A clean STL input: one triangle whose first and third vertices are
bit-identical (1065353216 is the pattern of 1.0, 1073741824 of 2.0). -/
def goodSTLInput : List STLTri :=
  [⟨⟨1065353216, 0, 0⟩, ⟨1073741824, 0, 0⟩, ⟨1065353216, 0, 0⟩⟩]

theorem layerFold_eq (sunRay : Ray) (t : GoTime) (ls : List ShadeLayer) (a : ℚ) (b f : Bool) :
    ls.foldl (layerStep sunRay t) (a, b, f) =
      (a * lightProduct sunRay t ls, b || anyBuildingHit sunRay ls,
        f || anyFoliageHit sunRay ls) := by
  induction ls generalizing a b f with
  | nil => simp [lightProduct, anyBuildingHit, anyFoliageHit]
  | cons l ls ih =>
    rw [List.foldl_cons, layerStep, ih]
    by_cases hl : hitLayer sunRay l
    · have hl2 : (sunRay.IntersectMesh l.mesh).2 = true := hl
      by_cases ha : a = 0
      · subst ha
        cases hfol : l.foliage <;>
          simp [lightProduct, anyBuildingHit, anyFoliageHit, hl, hl2, hfol, Bool.or_assoc]
      · cases hfol : l.foliage <;>
          simp [lightProduct, anyBuildingHit, anyFoliageHit, hl, hl2, hfol, ha,
            Bool.or_assoc, mul_assoc]
    · have hl2 : (sunRay.IntersectMesh l.mesh).2 = false := by
        simpa [hitLayer] using hl
      simp [lightProduct, anyBuildingHit, anyFoliageHit, hl, hl2]

theorem sunLightAt_eq (e : GoTime → ℚ → ℚ → SunPos) (r : SunPos → Vec3 → Ray)
    (m : ShadeModel) (p : Vec3) (t : GoTime) :
    sunLightAt e r m p t =
      if (e t m.lat m.lon).Altitude < 0 then ⟨e t m.lat m.lon, 0, false⟩
      else
        ⟨e t m.lat m.lon, lightProduct (r (e t m.lat m.lon) p) t m.layers,
          anyFoliageHit (r (e t m.lat m.lon) p) m.layers &&
            !anyBuildingHit (r (e t m.lat m.lon) p) m.layers⟩ := by
  rw [sunLightAt]
  split
  · rfl
  · simp only [layerFold_eq]
    simp

theorem zip_self_map {α β : Type} (l : List α) (f : α → β) :
    l.zip (l.map f) = l.map (fun a => (a, f a)) := by
  induction l with
  | nil => rfl
  | cons x xs ih => simp [ih]

theorem building_transmissivity (m : ShadeModel) (hm : FromAddCalls m) {l : ShadeLayer}
    (hl : l ∈ m.layers) (hf : l.foliage = false) (t : GoTime) : l.transmissivity t = 0 := by
  rcases hm l hl with h | h
  · rw [h]
    rfl
  · rw [h] at hf
    simp [foliageLayer] at hf

theorem foliage_transmissivity (m : ShadeModel) (hm : FromAddCalls m) {l : ShadeLayer}
    (hl : l ∈ m.layers) (hf : l.foliage = true) (t : GoTime) :
    l.transmissivity t = foliageTransmissivity t.yearDay := by
  rcases hm l hl with h | h
  · rw [h] at hf
    simp [buildingLayer] at hf
  · rw [h]
    rfl

theorem foliageTransmissivity_range (day : ℕ) :
    1 / 20 ≤ foliageTransmissivity day ∧ foliageTransmissivity day ≤ 1 / 2 := by
  rw [foliageTransmissivity]
  split_ifs with h1 h2 h3 h4
  · norm_num
  · have ha : (59 : ℚ) < (day : ℚ) := by
      have : 59 < day := by omega
      exact_mod_cast this
    have hb : (day : ℚ) ≤ 151 := by exact_mod_cast h2
    norm_num
    constructor <;> linarith
  · norm_num
  · have ha : (243 : ℚ) < (day : ℚ) := by
      have : 243 < day := by omega
      exact_mod_cast this
    have hb : (day : ℚ) ≤ 334 := by exact_mod_cast h4
    norm_num
    constructor <;> linarith
  · norm_num

theorem list_prod_le_one {l : List ℚ} (h : ∀ x ∈ l, 0 ≤ x ∧ x ≤ 1) : l.prod ≤ 1 := by
  induction l with
  | nil => simp
  | cons x xs ih =>
    simp only [List.prod_cons]
    have hx := h x (by simp)
    have hxs : xs.prod ≤ 1 := ih fun y hy => h y (by simp [hy])
    have hxsn : 0 ≤ xs.prod := List.prod_nonneg fun y hy => (h y (by simp [hy])).1
    calc x * xs.prod ≤ 1 * 1 := by
          apply mul_le_mul hx.2 hxs hxsn
          norm_num
      _ = 1 := by norm_num

theorem list_prod_lt_one {l : List ℚ} (hne : l ≠ []) (h : ∀ x ∈ l, 0 ≤ x ∧ x ≤ 1 / 2) :
    l.prod < 1 := by
  cases l with
  | nil => exact absurd rfl hne
  | cons x xs =>
    simp only [List.prod_cons]
    have hx := h x (by simp)
    have hxs1 : xs.prod ≤ 1 := by
      apply list_prod_le_one
      intro y hy
      refine ⟨(h y (by simp [hy])).1, le_trans (h y (by simp [hy])).2 (by norm_num)⟩
    have : x * xs.prod ≤ x := mul_le_of_le_one_right hx.1 hxs1
    linarith [hx.2]

/-- C1: for a ShadeModel whose layers were added via AddBuildings and
AddFoliage, every test point and every timestamp at which the sun's
altitude is at least 0: if the sun ray hits the mesh of at least one
building (non-foliage) layer, the emitted sample has Light = 0 and
Foliage = false, regardless of which foliage layers are also hit and of
the order the layers were added in. -/
theorem C1_buildingHit_zeroLight
    (e : GoTime → ℚ → ℚ → SunPos) (r : SunPos → Vec3 → Ray)
    (m : ShadeModel) (testPos : Vec3) (times : List GoTime)
    (hm : FromAddCalls m) :
    ∀ p ∈ times.zip (computeSunLight e r m testPos times),
      0 ≤ (e p.1 m.lat m.lon).Altitude →
      (∃ l ∈ m.layers, l.foliage = false ∧
          ((r (e p.1 m.lat m.lon) testPos).IntersectMesh l.mesh).2 = true) →
      p.2.Light = 0 ∧ p.2.Foliage = false := by
  intro p hp
  rw [computeSunLight, zip_self_map, List.mem_map] at hp
  obtain ⟨t, ht, rfl⟩ := hp
  dsimp only
  intro halt hhit
  rw [sunLightAt_eq, if_neg (not_lt.mpr halt)]
  obtain ⟨l, hlmem, hlf, hlhit⟩ := hhit
  constructor
  · show lightProduct (r (e t m.lat m.lon) testPos) t m.layers = 0
    apply List.prod_eq_zero
    refine List.mem_map.mpr ⟨l, List.mem_filter.mpr ⟨hlmem, ?_⟩, ?_⟩
    · exact hlhit
    · exact building_transmissivity m hm hlmem hlf t
  · show (anyFoliageHit (r (e t m.lat m.lon) testPos) m.layers &&
      !anyBuildingHit (r (e t m.lat m.lon) testPos) m.layers) = false
    have hb : anyBuildingHit (r (e t m.lat m.lon) testPos) m.layers = true :=
      List.any_eq_true.mpr ⟨l, hlmem, by simp [hitLayer, hlhit, hlf]⟩
    simp [hb]

/-- C2: for a ShadeModel built via AddBuildings and AddFoliage, every
sample of computeSunLight satisfies: Foliage implies Light < 1, and
Foliage is mutually exclusive with building occlusion (a hit on any
non-foliage layer forces Foliage = false). -/
theorem C2_foliage_invariant
    (e : GoTime → ℚ → ℚ → SunPos) (r : SunPos → Vec3 → Ray)
    (m : ShadeModel) (testPos : Vec3) (times : List GoTime)
    (hm : FromAddCalls m) :
    ∀ p ∈ times.zip (computeSunLight e r m testPos times),
      (p.2.Foliage = true → p.2.Light < 1) ∧
      (∀ l ∈ m.layers, l.foliage = false →
        ((r (e p.1 m.lat m.lon) testPos).IntersectMesh l.mesh).2 = true →
        p.2.Foliage = false) := by
  intro p hp
  rw [computeSunLight, zip_self_map, List.mem_map] at hp
  obtain ⟨t, ht, rfl⟩ := hp
  dsimp only
  rw [sunLightAt_eq]
  by_cases halt : (e t m.lat m.lon).Altitude < 0
  · rw [if_pos halt]
    exact ⟨fun hfol => by simp at hfol, fun l _ _ _ => rfl⟩
  · rw [if_neg halt]
    refine ⟨?_, ?_⟩
    · intro hfol
      have hfol2 : (anyFoliageHit (r (e t m.lat m.lon) testPos) m.layers &&
          !anyBuildingHit (r (e t m.lat m.lon) testPos) m.layers) = true := hfol
      show lightProduct (r (e t m.lat m.lon) testPos) t m.layers < 1
      rw [Bool.and_eq_true] at hfol2
      obtain ⟨hf, hbn⟩ := hfol2
      have hb : anyBuildingHit (r (e t m.lat m.lon) testPos) m.layers = false := by
        cases hcase : anyBuildingHit (r (e t m.lat m.lon) testPos) m.layers
        · rfl
        · rw [hcase] at hbn
          simp at hbn
      obtain ⟨l0, hl0, hl0p⟩ := List.any_eq_true.mp hf
      have hl0hit : hitLayer (r (e t m.lat m.lon) testPos) l0 = true := by
        rw [Bool.and_eq_true] at hl0p
        exact hl0p.1
      apply list_prod_lt_one
      · intro hnil
        have : l0.transmissivity t ∈
            ((m.layers.filter (hitLayer (r (e t m.lat m.lon) testPos))).map
              (fun l => l.transmissivity t)) :=
          List.mem_map_of_mem _ (List.mem_filter.mpr ⟨hl0, hl0hit⟩)
        rw [hnil] at this
        simp at this
      · intro x hx
        obtain ⟨l1, hl1f, rfl⟩ := List.mem_map.mp hx
        have hl1mem := (List.mem_filter.mp hl1f).1
        have hl1hit := (List.mem_filter.mp hl1f).2
        have hl1fol : l1.foliage = true := by
          by_contra hc
          rw [Bool.not_eq_true] at hc
          have : anyBuildingHit (r (e t m.lat m.lon) testPos) m.layers = true :=
            List.any_eq_true.mpr ⟨l1, hl1mem, by simp [hl1hit, hc]⟩
          rw [this] at hb
          exact Bool.noConfusion hb
        rw [foliage_transmissivity m hm hl1mem hl1fol]
        have hr := foliageTransmissivity_range t.yearDay
        exact ⟨by linarith [hr.1], hr.2⟩
    · intro l hlmem hlf hlhit
      have hb : anyBuildingHit (r (e t m.lat m.lon) testPos) m.layers = true :=
        List.any_eq_true.mpr ⟨l, hlmem, by simp [hitLayer, hlhit, hlf]⟩
      show (anyFoliageHit (r (e t m.lat m.lon) testPos) m.layers &&
        !anyBuildingHit (r (e t m.lat m.lon) testPos) m.layers) = false
      simp [hb]

theorem any_perm {α : Type} {l1 l2 : List α} (h : l1.Perm l2) (p : α → Bool) :
    l1.any p = l2.any p := by
  cases hb : l2.any p
  · rw [List.any_eq_false] at hb ⊢
    intro x hx
    exact hb x (h.mem_iff.mp hx)
  · rw [List.any_eq_true] at hb ⊢
    obtain ⟨x, hx, hpx⟩ := hb
    exact ⟨x, h.mem_iff.mpr hx, hpx⟩

theorem sunLightAt_perm (e : GoTime → ℚ → ℚ → SunPos) (r : SunPos → Vec3 → Ray)
    {ls1 ls2 : List ShadeLayer} (hperm : ls1.Perm ls2) (lat lon elev : ℚ)
    (p : Vec3) (t : GoTime) :
    sunLightAt e r ⟨lat, lon, elev, ls1⟩ p t = sunLightAt e r ⟨lat, lon, elev, ls2⟩ p t := by
  rw [sunLightAt_eq, sunLightAt_eq]
  dsimp only
  have hL : lightProduct (r (e t lat lon) p) t ls1 = lightProduct (r (e t lat lon) p) t ls2 :=
    (((hperm.filter _).map _).prod_eq)
  have hB : anyBuildingHit (r (e t lat lon) p) ls1 = anyBuildingHit (r (e t lat lon) p) ls2 :=
    any_perm hperm _
  have hF : anyFoliageHit (r (e t lat lon) p) ls1 = anyFoliageHit (r (e t lat lon) p) ls2 :=
    any_perm hperm _
  rw [hL, hB, hF]

/-- C3: permuting the layer list of a ShadeModel leaves the whole output
of computeSunLight unchanged (light values and foliage flags alike), for
every test point and timestamp list — the skip-multiplication-once-zero
shortcut included. -/
theorem C3_layer_order_irrelevant
    (e : GoTime → ℚ → ℚ → SunPos) (r : SunPos → Vec3 → Ray)
    (lat lon elev : ℚ) (ls1 ls2 : List ShadeLayer) (testPos : Vec3) (times : List GoTime)
    (hperm : ls1.Perm ls2) :
    computeSunLight e r ⟨lat, lon, elev, ls1⟩ testPos times =
      computeSunLight e r ⟨lat, lon, elev, ls2⟩ testPos times := by
  unfold computeSunLight
  induction times with
  | nil => rfl
  | cons t ts ih =>
    rw [List.map_cons, List.map_cons, sunLightAt_perm e r hperm lat lon elev testPos t]
    rw [List.cons.injEq]
    exact ⟨rfl, ih⟩

theorem modelBF_fromAddCalls : FromAddCalls modelBF := by
  intro l hl
  simp [modelBF] at hl
  rcases hl with rfl | rfl
  · exact Or.inl rfl
  · exact Or.inr rfl

theorem modelF_fromAddCalls : FromAddCalls modelF := by
  intro l hl
  simp [modelF] at hl
  subst hl
  exact Or.inr rfl

theorem upRay_hits_mesh1 :
    ((mkRayUp (eph45 t0 modelBF.lat modelBF.lon) origin0).IntersectMesh mesh1).2 = true := by
  norm_num [mkRayUp, eph45, origin0, Ray.IntersectMesh, meshStep, Ray.IntersectTriangle, detOf,
    uOf, vOf, tOf, dot, cross, vsub, edge1, edge2, hVec, sVec, qVec, triAt, mesh1, epsilon]

/-- Witness for C1 at a concrete model, point and timestamp. -/
theorem C1_buildingHit_zeroLight_witness :
    FromAddCalls modelBF ∧
    (t0, sunLightAt eph45 mkRayUp modelBF origin0 t0) ∈
      [t0].zip (computeSunLight eph45 mkRayUp modelBF origin0 [t0]) ∧
    0 ≤ (eph45 t0 modelBF.lat modelBF.lon).Altitude ∧
    (∃ l ∈ modelBF.layers, l.foliage = false ∧
        ((mkRayUp (eph45 t0 modelBF.lat modelBF.lon) origin0).IntersectMesh l.mesh).2 = true) ∧
    (sunLightAt eph45 mkRayUp modelBF origin0 t0).Light = 0 ∧
    (sunLightAt eph45 mkRayUp modelBF origin0 t0).Foliage = false := by
  have hm := modelBF_fromAddCalls
  have hmem : (t0, sunLightAt eph45 mkRayUp modelBF origin0 t0) ∈
      [t0].zip (computeSunLight eph45 mkRayUp modelBF origin0 [t0]) := by
    simp [computeSunLight]
  have halt : 0 ≤ (eph45 t0 modelBF.lat modelBF.lon).Altitude := by norm_num [eph45]
  have hex : ∃ l ∈ modelBF.layers, l.foliage = false ∧
      ((mkRayUp (eph45 t0 modelBF.lat modelBF.lon) origin0).IntersectMesh l.mesh).2 = true :=
    ⟨buildingLayer mesh1, by simp [modelBF], rfl, upRay_hits_mesh1⟩
  exact ⟨hm, hmem, halt, hex,
    C1_buildingHit_zeroLight eph45 mkRayUp modelBF origin0 [t0] hm _ hmem halt hex⟩

/-- Witness for C2: the foliage-implies-attenuation half at a
foliage-only model, and the mutual-exclusion half at a model with both a
building and a foliage layer. -/
theorem C2_foliage_invariant_witness :
    (FromAddCalls modelF ∧
      (t0, sunLightAt eph45 mkRayUp modelF origin0 t0) ∈
        [t0].zip (computeSunLight eph45 mkRayUp modelF origin0 [t0]) ∧
      (sunLightAt eph45 mkRayUp modelF origin0 t0).Foliage = true ∧
      (sunLightAt eph45 mkRayUp modelF origin0 t0).Light < 1) ∧
    (FromAddCalls modelBF ∧
      buildingLayer mesh1 ∈ modelBF.layers ∧
      (buildingLayer mesh1).foliage = false ∧
      ((mkRayUp (eph45 t0 modelBF.lat modelBF.lon) origin0).IntersectMesh
        (buildingLayer mesh1).mesh).2 = true ∧
      (sunLightAt eph45 mkRayUp modelBF origin0 t0).Foliage = false) := by
  have hmF := modelF_fromAddCalls
  have hmemF : (t0, sunLightAt eph45 mkRayUp modelF origin0 t0) ∈
      [t0].zip (computeSunLight eph45 mkRayUp modelF origin0 [t0]) := by
    simp [computeSunLight]
  have hfolF : (sunLightAt eph45 mkRayUp modelF origin0 t0).Foliage = true := by
    norm_num [sunLightAt, layerStep, modelF, foliageLayer, mkRayUp, eph45, origin0,
      Ray.IntersectMesh, meshStep, Ray.IntersectTriangle, detOf,
      uOf, vOf, tOf, dot, cross, vsub, edge1, edge2, hVec, sVec, qVec, triAt, mesh1, epsilon]
  have hmB := modelBF_fromAddCalls
  have hmemB : (t0, sunLightAt eph45 mkRayUp modelBF origin0 t0) ∈
      [t0].zip (computeSunLight eph45 mkRayUp modelBF origin0 [t0]) := by
    simp [computeSunLight]
  refine ⟨⟨hmF, hmemF, hfolF,
      (C2_foliage_invariant eph45 mkRayUp modelF origin0 [t0] hmF _ hmemF).1 hfolF⟩,
    hmB, by simp [modelBF], rfl, upRay_hits_mesh1,
    (C2_foliage_invariant eph45 mkRayUp modelBF origin0 [t0] hmB _ hmemB).2
      (buildingLayer mesh1) (by simp [modelBF]) rfl upRay_hits_mesh1⟩

/-- Witness for C3 at a concrete two-layer model and its swap. -/
theorem C3_layer_order_irrelevant_witness :
    ([buildingLayer mesh1, foliageLayer mesh1] : List ShadeLayer).Perm
      [foliageLayer mesh1, buildingLayer mesh1] ∧
    computeSunLight eph45 mkRayUp ⟨42, -71, 200, [buildingLayer mesh1, foliageLayer mesh1]⟩
        origin0 [t0] =
      computeSunLight eph45 mkRayUp ⟨42, -71, 200, [foliageLayer mesh1, buildingLayer mesh1]⟩
        origin0 [t0] := by
  have hperm : ([buildingLayer mesh1, foliageLayer mesh1] : List ShadeLayer).Perm
      [foliageLayer mesh1, buildingLayer mesh1] := List.Perm.swap _ _ _
  exact ⟨hperm,
    C3_layer_order_irrelevant eph45 mkRayUp 42 (-71) 200 _ _ origin0 [t0] hperm⟩

theorem intersectTriangle_hit_iff (r : Ray) (tri : Triangle) :
    (r.IntersectTriangle tri).2 = true ↔
      ¬(-epsilon < detOf r tri ∧ detOf r tri < epsilon) ∧
      ¬(uOf r tri < 0 ∨ uOf r tri > 1) ∧
      ¬(vOf r tri < 0 ∨ uOf r tri + vOf r tri > 1) ∧
      ¬(tOf r tri < epsilon) := by
  rw [Ray.IntersectTriangle]
  split_ifs with h1 h2 h3 h4 <;> simp_all

theorem intersectTriangle_hit_eq (r : Ray) (tri : Triangle)
    (h : (r.IntersectTriangle tri).2 = true) :
    r.IntersectTriangle tri = (tOf r tri, true) := by
  rw [Ray.IntersectTriangle] at h ⊢
  split_ifs at h ⊢
  all_goals simp_all

theorem intersectTriangle_hit_ge (r : Ray) (tri : Triangle)
    (h : (r.IntersectTriangle tri).2 = true) :
    epsilon ≤ (r.IntersectTriangle tri).1 := by
  have h4 := ((intersectTriangle_hit_iff r tri).mp h).2.2.2
  rw [intersectTriangle_hit_eq r tri h]
  exact le_of_not_lt h4

theorem detOf_flip (r : Ray) (tri : Triangle) : detOf r (flipTri tri) = -detOf r tri := by
  simp only [detOf, dot, cross, vsub, hVec, edge1, edge2, flipTri]
  ring

theorem uOf_flip (r : Ray) (tri : Triangle) : uOf r (flipTri tri) = vOf r tri := by
  have h1 : dot (sVec r (flipTri tri)) (hVec r (flipTri tri)) = -(dot r.Dir (qVec r tri)) := by
    simp only [dot, cross, vsub, sVec, hVec, qVec, edge1, edge2, flipTri]
    ring
  simp only [uOf, vOf, detOf_flip, h1, inv_neg]
  ring

theorem vOf_flip (r : Ray) (tri : Triangle) : vOf r (flipTri tri) = uOf r tri := by
  have h1 : dot r.Dir (qVec r (flipTri tri)) = -(dot (sVec r tri) (hVec r tri)) := by
    simp only [dot, cross, vsub, sVec, hVec, qVec, edge1, edge2, flipTri]
    ring
  simp only [vOf, uOf, detOf_flip, h1, inv_neg]
  ring

theorem tOf_flip (r : Ray) (tri : Triangle) : tOf r (flipTri tri) = tOf r tri := by
  have h1 : dot (edge2 (flipTri tri)) (qVec r (flipTri tri)) = -(dot (edge2 tri) (qVec r tri)) := by
    simp only [dot, cross, vsub, sVec, qVec, edge1, edge2, flipTri]
    ring
  simp only [tOf, detOf_flip, h1, inv_neg]
  ring

theorem bary_chain (u v : ℚ) (T : ℚ × Bool) (h : u < 0 ∨ v < 0 ∨ u + v > 1) :
    (if u < 0 ∨ u > 1 then ((0 : ℚ), false) else if v < 0 ∨ u + v > 1 then ((0 : ℚ), false)
      else T) = ((0 : ℚ), false) := by
  rcases h with h | h | h
  · rw [if_pos (Or.inl h)]
  · by_cases h2 : u < 0 ∨ u > 1
    · rw [if_pos h2]
    · rw [if_neg h2, if_pos (Or.inl h)]
  · by_cases h2 : u < 0 ∨ u > 1
    · rw [if_pos h2]
    · rw [if_neg h2, if_pos (Or.inr h)]

theorem intersectTriangle_flip (r : Ray) (tri : Triangle) :
    r.IntersectTriangle (flipTri tri) = r.IntersectTriangle tri := by
  rw [Ray.IntersectTriangle, Ray.IntersectTriangle, detOf_flip, uOf_flip, vOf_flip, tOf_flip]
  by_cases h1 : -epsilon < detOf r tri ∧ detOf r tri < epsilon
  · rw [if_pos h1, if_pos (by constructor <;> linarith [h1.1, h1.2])]
  · rw [if_neg h1, if_neg (fun hc => h1 ⟨by linarith [hc.2], by linarith [hc.1]⟩)]
    by_cases hpass : 0 ≤ uOf r tri ∧ 0 ≤ vOf r tri ∧ uOf r tri + vOf r tri ≤ 1
    · obtain ⟨hu, hv, huv⟩ := hpass
      have c1 : ¬(vOf r tri < 0 ∨ vOf r tri > 1) := by rintro (h | h) <;> linarith
      have c2 : ¬(uOf r tri < 0 ∨ vOf r tri + uOf r tri > 1) := by rintro (h | h) <;> linarith
      have c3 : ¬(uOf r tri < 0 ∨ uOf r tri > 1) := by rintro (h | h) <;> linarith
      have c4 : ¬(vOf r tri < 0 ∨ uOf r tri + vOf r tri > 1) := by rintro (h | h) <;> linarith
      rw [if_neg c1, if_neg c2, if_neg c3, if_neg c4]
    · push_neg at hpass
      by_cases hu : 0 ≤ uOf r tri
      · by_cases hv : 0 ≤ vOf r tri
        · have huv : uOf r tri + vOf r tri > 1 := lt_of_not_le fun hle =>
            absurd (hpass hu hv) (not_lt.mpr hle)
          rw [bary_chain _ _ _ (Or.inr (Or.inr (by linarith))),
            bary_chain _ _ _ (Or.inr (Or.inr (by linarith)))]
        · rw [bary_chain _ _ _ (Or.inl (lt_of_not_le hv)),
            bary_chain _ _ _ (Or.inr (Or.inl (lt_of_not_le hv)))]
      · rw [bary_chain _ _ _ (Or.inr (Or.inl (lt_of_not_le hu))),
          bary_chain _ _ _ (Or.inl (lt_of_not_le hu))]

/-- C4: IntersectTriangle reports no hit when the determinant lies in
the open band around 0 of radius epsilon, and none when the ray
parameter t falls below epsilon; every reported hit has distance at
least epsilon; and reversing the triangle's vertex orientation never
changes the result (no back-face culling). -/
theorem C4_intersectTriangle_contract (r : Ray) (tri : Triangle) :
    ((-epsilon < detOf r tri ∧ detOf r tri < epsilon) → r.IntersectTriangle tri = (0, false)) ∧
    (tOf r tri < epsilon → (r.IntersectTriangle tri).2 = false) ∧
    ((r.IntersectTriangle tri).2 = true → epsilon ≤ (r.IntersectTriangle tri).1) ∧
    r.IntersectTriangle (flipTri tri) = r.IntersectTriangle tri := by
  refine ⟨?_, ?_, intersectTriangle_hit_ge r tri, intersectTriangle_flip r tri⟩
  · intro h
    rw [Ray.IntersectTriangle, if_pos h]
  · intro h
    rcases Bool.eq_false_or_eq_true ((r.IntersectTriangle tri).2) with hh | hh
    · exact absurd h ((intersectTriangle_hit_iff r tri).mp hh).2.2.2
    · exact hh

/-- Witness for C4: the determinant band at a parallel ray, the low-t
rejection at a ray starting on the triangle, the positive distance and
the orientation-flip equality at a hitting ray. -/
theorem C4_intersectTriangle_contract_witness :
    ((-epsilon < detOf rayPar tri1 ∧ detOf rayPar tri1 < epsilon) ∧
      rayPar.IntersectTriangle tri1 = (0, false)) ∧
    (tOf rayAt1 tri1 < epsilon ∧ (rayAt1.IntersectTriangle tri1).2 = false) ∧
    ((rayUp.IntersectTriangle tri1).2 = true ∧ epsilon ≤ (rayUp.IntersectTriangle tri1).1) ∧
    rayUp.IntersectTriangle (flipTri tri1) = rayUp.IntersectTriangle tri1 := by
  have hband : -epsilon < detOf rayPar tri1 ∧ detOf rayPar tri1 < epsilon := by
    norm_num [detOf, dot, cross, vsub, hVec, edge1, edge2, rayPar, tri1, epsilon]
  have hlow : tOf rayAt1 tri1 < epsilon := by
    norm_num [tOf, detOf, dot, cross, vsub, hVec, sVec, qVec, edge1, edge2, rayAt1, tri1, epsilon]
  have hhit : (rayUp.IntersectTriangle tri1).2 = true := by
    norm_num [Ray.IntersectTriangle, detOf, uOf, vOf, tOf, dot, cross, vsub, hVec, sVec, qVec,
      edge1, edge2, rayUp, tri1, epsilon]
  exact ⟨⟨hband, (C4_intersectTriangle_contract rayPar tri1).1 hband⟩,
    ⟨hlow, (C4_intersectTriangle_contract rayAt1 tri1).2.1 hlow⟩,
    ⟨hhit, (C4_intersectTriangle_contract rayUp tri1).2.2.1 hhit⟩,
    (C4_intersectTriangle_contract rayUp tri1).2.2.2⟩

theorem meshStep_eq (r : Ray) (m : Mesh) (st : ℚ × Bool) (i : ℕ × ℕ × ℕ) :
    meshStep r m st i =
      if (r.IntersectTriangle (triAt m i)).2 = false then st
      else if st.2 = false then ((r.IntersectTriangle (triAt m i)).1, true)
      else if (r.IntersectTriangle (triAt m i)).1 < st.1 then
        ((r.IntersectTriangle (triAt m i)).1, true)
      else st := by
  rcases st with ⟨t0, b⟩
  rw [meshStep]
  cases hb : b <;> cases hres : (r.IntersectTriangle (triAt m i)).2 <;>
    simp [hb, hres]

theorem meshFold_true (r : Ray) (m : Mesh) (l : List (ℕ × ℕ × ℕ)) (t0 : ℚ) :
    l.foldl (meshStep r m) (t0, true) =
      (((l.filter (triHit r m)).map (triDist r m)).foldl min t0, true) := by
  induction l generalizing t0 with
  | nil => simp
  | cons i l ih =>
    rw [List.foldl_cons]
    by_cases hi : (r.IntersectTriangle (triAt m i)).2 = true
    · have hstep : meshStep r m (t0, true) i = (min t0 (triDist r m i), true) := by
        rw [meshStep_eq]
        simp only [hi, triDist]
        norm_num
        split_ifs with h
        · rw [min_eq_right (le_of_lt h)]
        · rw [min_eq_left (not_lt.mp h)]
      have hib : triHit r m i = true := hi
      rw [hstep, ih, List.filter_cons]
      simp only [hib, if_true, List.map_cons, List.foldl_cons]
    · have hi2 : (r.IntersectTriangle (triAt m i)).2 = false := by simpa using hi
      have hib : triHit r m i = false := hi2
      have hstep : meshStep r m (t0, true) i = (t0, true) := by
        rw [meshStep_eq, if_pos hi2]
      rw [hstep, ih, List.filter_cons]
      simp only [hib]
      norm_num

theorem meshFold_false (r : Ray) (m : Mesh) (l : List (ℕ × ℕ × ℕ)) (x : ℚ) :
    l.foldl (meshStep r m) (x, false) =
      match (l.filter (triHit r m)).map (triDist r m) with
      | [] => (x, false)
      | d :: ds => (ds.foldl min d, true) := by
  induction l generalizing x with
  | nil => simp
  | cons i l ih =>
    rw [List.foldl_cons]
    by_cases hi : (r.IntersectTriangle (triAt m i)).2 = true
    · have hstep : meshStep r m (x, false) i = ((r.IntersectTriangle (triAt m i)).1, true) := by
        rw [meshStep_eq]
        simp [hi]
      have hib : triHit r m i = true := hi
      rw [hstep, meshFold_true, List.filter_cons]
      simp only [hib, if_true, List.map_cons]
      rfl
    · have hi2 : (r.IntersectTriangle (triAt m i)).2 = false := by simpa using hi
      have hib : triHit r m i = false := hi2
      have hstep : meshStep r m (x, false) i = (x, false) := by
        rw [meshStep_eq, if_pos hi2]
      rw [hstep, ih, List.filter_cons]
      simp only [hib]
      norm_num

theorem foldl_min_le_init (l : List ℚ) (a : ℚ) : l.foldl min a ≤ a := by
  induction l generalizing a with
  | nil => simp
  | cons x l ih => exact le_trans (ih (min a x)) (min_le_left a x)

theorem foldl_min_le_mem (l : List ℚ) (a x : ℚ) (hx : x ∈ l) : l.foldl min a ≤ x := by
  induction l generalizing a with
  | nil => simp at hx
  | cons y l ih =>
    rcases List.mem_cons.mp hx with rfl | hx2
    · exact le_trans (foldl_min_le_init l (min a x)) (min_le_right a x)
    · exact ih (min a y) hx2

theorem foldl_min_mem (l : List ℚ) (a : ℚ) : l.foldl min a = a ∨ l.foldl min a ∈ l := by
  induction l generalizing a with
  | nil => simp
  | cons x l ih =>
    rw [List.foldl_cons]
    rcases ih (min a x) with h | h
    · rw [h]
      rcases le_total a x with hax | hax
      · exact Or.inl (min_eq_left hax)
      · refine Or.inr ?_
        rw [min_eq_right hax]
        exact List.mem_cons_self x l
    · exact Or.inr (List.mem_cons_of_mem x h)

/-- C10: IntersectMesh hits iff some triangle of the mesh hits (so the
empty mesh never hits), and a reported hit carries the minimum of the
hit triangles' distances, which is at least epsilon. -/
theorem C10_intersectMesh_contract (r : Ray) (m : Mesh)
    (hrange : ∀ i ∈ m.Tris,
      i.1 < m.Verts.length ∧ i.2.1 < m.Verts.length ∧ i.2.2 < m.Verts.length) :
    ((r.IntersectMesh m).2 = true ↔
      ∃ i ∈ m.Tris, (r.IntersectTriangle (triAt m i)).2 = true) ∧
    (m.Tris = [] → (r.IntersectMesh m).2 = false) ∧
    ((r.IntersectMesh m).2 = true →
      (∃ i ∈ m.Tris, (r.IntersectTriangle (triAt m i)).2 = true ∧
        (r.IntersectMesh m).1 = (r.IntersectTriangle (triAt m i)).1) ∧
      (∀ i ∈ m.Tris, (r.IntersectTriangle (triAt m i)).2 = true →
        (r.IntersectMesh m).1 ≤ (r.IntersectTriangle (triAt m i)).1) ∧
      epsilon ≤ (r.IntersectMesh m).1) := by
  have hmem_iff : ∀ i, i ∈ m.Tris.filter (triHit r m) ↔
      (i ∈ m.Tris ∧ (r.IntersectTriangle (triAt m i)).2 = true) := fun i => List.mem_filter
  rcases hF : m.Tris.filter (triHit r m) with _ | ⟨i0, rest⟩
  · have hres : r.IntersectMesh m = (0, false) := by
      rw [Ray.IntersectMesh, meshFold_false, hF]
      rfl
    have hno : ∀ i ∈ m.Tris, ¬((r.IntersectTriangle (triAt m i)).2 = true) := by
      intro i him hhit
      have := (hmem_iff i).mpr ⟨him, hhit⟩
      rw [hF] at this
      simp at this
    refine ⟨?_, fun _ => by rw [hres], ?_⟩
    · rw [hres]
      constructor
      · intro h
        exact absurd h (by norm_num)
      · rintro ⟨i, him, hhit⟩
        exact absurd hhit (hno i him)
    · intro h
      rw [hres] at h
      exact absurd h (by norm_num)
  · have hres : r.IntersectMesh m =
        ((rest.map (triDist r m)).foldl min (triDist r m i0), true) := by
      rw [Ray.IntersectMesh, meshFold_false, hF]
      rfl
    have hi0 : i0 ∈ m.Tris ∧ (r.IntersectTriangle (triAt m i0)).2 = true := by
      apply (hmem_iff i0).mp
      rw [hF]
      exact List.mem_cons_self i0 rest
    refine ⟨?_, ?_, ?_⟩
    · rw [hres]
      exact ⟨fun _ => ⟨i0, hi0.1, hi0.2⟩, fun _ => rfl⟩
    · intro h
      rw [h, List.filter_nil] at hF
      exact List.noConfusion hF
    · intro _
      have hval : (r.IntersectMesh m).1 = (rest.map (triDist r m)).foldl min (triDist r m i0) := by
        rw [hres]
      have hexist : ∃ i ∈ m.Tris, (r.IntersectTriangle (triAt m i)).2 = true ∧
          (r.IntersectMesh m).1 = (r.IntersectTriangle (triAt m i)).1 := by
        rcases foldl_min_mem (rest.map (triDist r m)) (triDist r m i0) with h | h
        · exact ⟨i0, hi0.1, hi0.2, by rw [hval, h]; exact rfl⟩
        · obtain ⟨i, hirest, hdist⟩ := List.mem_map.mp h
          have hifil : i ∈ m.Tris.filter (triHit r m) := by
            rw [hF]
            exact List.mem_cons_of_mem i0 hirest
          obtain ⟨him, hhit⟩ := (hmem_iff i).mp hifil
          exact ⟨i, him, hhit, by rw [hval, ← hdist]; exact rfl⟩
      refine ⟨hexist, ?_, ?_⟩
      · intro i him hhit
        have hifil : i ∈ m.Tris.filter (triHit r m) := (hmem_iff i).mpr ⟨him, hhit⟩
        rw [hF] at hifil
        rcases List.mem_cons.mp hifil with rfl | hirest
        · rw [hval]
          exact foldl_min_le_init _ _
        · rw [hval]
          exact foldl_min_le_mem _ _ _ (List.mem_map_of_mem _ hirest)
      · obtain ⟨i, _, hhit, hveq⟩ := hexist
        rw [hveq]
        exact intersectTriangle_hit_ge r (triAt m i) hhit

/-- Witness for C10 at the one-triangle mesh mesh1 and the upward ray
that hits it. -/
theorem C10_intersectMesh_contract_witness :
    (∀ i ∈ mesh1.Tris,
      i.1 < mesh1.Verts.length ∧ i.2.1 < mesh1.Verts.length ∧ i.2.2 < mesh1.Verts.length) ∧
    ((rayUp.IntersectMesh mesh1).2 = true ↔
      ∃ i ∈ mesh1.Tris, (rayUp.IntersectTriangle (triAt mesh1 i)).2 = true) ∧
    (rayUp.IntersectMesh mesh1).2 = true ∧
    epsilon ≤ (rayUp.IntersectMesh mesh1).1 := by
  have hrange : ∀ i ∈ mesh1.Tris,
      i.1 < mesh1.Verts.length ∧ i.2.1 < mesh1.Verts.length ∧ i.2.2 < mesh1.Verts.length := by
    intro i hi
    simp only [mesh1, List.mem_singleton] at hi
    subst hi
    norm_num [mesh1]
  have hhit : (rayUp.IntersectMesh mesh1).2 = true := by
    norm_num [Ray.IntersectMesh, meshStep, Ray.IntersectTriangle, detOf, uOf, vOf, tOf,
      dot, cross, vsub, edge1, edge2, hVec, sVec, qVec, triAt, mesh1, rayUp, epsilon]
  exact ⟨hrange, (C10_intersectMesh_contract rayUp mesh1 hrange).1, hhit,
    ((C10_intersectMesh_contract rayUp mesh1 hrange).2.2 hhit).2.2⟩

theorem ft_window1 (d : ℕ) (h1 : 59 ≤ d) (h2 : d ≤ 151) :
    foliageTransmissivity d = 0.5 + ((d : ℚ) - 59) / 92 * (0.05 - 0.5) := by
  rw [foliageTransmissivity]
  rcases eq_or_lt_of_le h1 with heq | hlt
  · rw [if_pos (by omega)]
    have : (d : ℚ) = 59 := by exact_mod_cast heq.symm
    rw [this]
    norm_num
  · rw [if_neg (by omega), if_pos h2]
    norm_num

theorem ft_window2 (d : ℕ) (h1 : 243 ≤ d) (h2 : d ≤ 334) :
    foliageTransmissivity d = 0.05 + ((d : ℚ) - 243) / 91 * (0.5 - 0.05) := by
  rw [foliageTransmissivity]
  rcases eq_or_lt_of_le h1 with heq | hlt
  · rw [if_neg (by omega), if_neg (by omega), if_pos (by omega)]
    have : (d : ℚ) = 243 := by exact_mod_cast heq.symm
    rw [this]
    norm_num
  · rw [if_neg (by omega), if_neg (by omega), if_neg (by omega), if_pos h2]
    norm_num

/-- C5: the transmissivity function installed by AddFoliage depends only
on the day-of-year of its argument; it is 0.5 up to day 59 and past day
334, follows the two linear interpolation windows in between around the
constant summer value 0.05, is strictly decreasing on the 59 to 151
window, strictly increasing on the 243 to 334 window, and always lies in
the closed interval from 0.05 to 0.5. -/
theorem C5_foliage_transmissivity :
    (∀ (m : ShadeModel) (mesh : Mesh),
      (AddFoliage m mesh).layers = m.layers ++ [foliageLayer mesh]) ∧
    (∀ (mesh : Mesh) (t : GoTime),
      (foliageLayer mesh).transmissivity t = foliageTransmissivity t.yearDay) ∧
    (∀ (mesh : Mesh) (t1 t2 : GoTime), t1.yearDay = t2.yearDay →
      (foliageLayer mesh).transmissivity t1 = (foliageLayer mesh).transmissivity t2) ∧
    (∀ d : ℕ, d ≤ 59 → foliageTransmissivity d = 0.5) ∧
    (∀ d : ℕ, 334 < d → foliageTransmissivity d = 0.5) ∧
    (∀ d : ℕ, 59 < d → d ≤ 151 →
      foliageTransmissivity d = 0.5 + ((d : ℚ) - 59) / 92 * (0.05 - 0.5)) ∧
    (∀ d : ℕ, 151 < d → d ≤ 243 → foliageTransmissivity d = 0.05) ∧
    (∀ d : ℕ, 243 < d → d ≤ 334 →
      foliageTransmissivity d = 0.05 + ((d : ℚ) - 243) / 91 * (0.5 - 0.05)) ∧
    (∀ d1 d2 : ℕ, 59 ≤ d1 → d1 < d2 → d2 ≤ 151 →
      foliageTransmissivity d2 < foliageTransmissivity d1) ∧
    (∀ d1 d2 : ℕ, 243 ≤ d1 → d1 < d2 → d2 ≤ 334 →
      foliageTransmissivity d1 < foliageTransmissivity d2) ∧
    (∀ d : ℕ, 0.05 ≤ foliageTransmissivity d ∧ foliageTransmissivity d ≤ 0.5) := by
  refine ⟨fun m mesh => rfl, fun mesh t => rfl, ?_, ?_, ?_, ?_, ?_, ?_, ?_, ?_, ?_⟩
  · intro mesh t1 t2 hday
    show foliageTransmissivity t1.yearDay = foliageTransmissivity t2.yearDay
    rw [hday]
  · intro d hd
    rw [foliageTransmissivity, if_pos hd]
  · intro d hd
    rw [foliageTransmissivity, if_neg (by omega), if_neg (by omega), if_neg (by omega),
      if_neg (by omega)]
  · intro d h1 h2
    rw [ft_window1 d (by omega) h2]
  · intro d h1 h2
    rw [foliageTransmissivity, if_neg (by omega), if_neg (by omega), if_pos h2]
  · intro d h1 h2
    rw [ft_window2 d (by omega) h2]
  · intro d1 d2 h1 h12 h2
    rw [ft_window1 d1 h1 (by omega), ft_window1 d2 (by omega) h2]
    have hc : (d1 : ℚ) < (d2 : ℚ) := by exact_mod_cast h12
    norm_num
    linarith
  · intro d1 d2 h1 h12 h2
    rw [ft_window2 d1 h1 (by omega), ft_window2 d2 (by omega) h2]
    have hc : (d1 : ℚ) < (d2 : ℚ) := by exact_mod_cast h12
    norm_num
    linarith
  · intro d
    have h := foliageTransmissivity_range d
    constructor <;> [linarith [h.1]; linarith [h.2]]

/-- Witness for C5: each universally quantified clause applied at a
concrete day inside its window. -/
theorem C5_foliage_transmissivity_witness :
    ((AddFoliage modelF mesh1).layers = modelF.layers ++ [foliageLayer mesh1]) ∧
    ((foliageLayer mesh1).transmissivity t0 = foliageTransmissivity t0.yearDay) ∧
    ((⟨2022, 100, 720⟩ : GoTime).yearDay = (⟨2023, 100, 0⟩ : GoTime).yearDay ∧
      (foliageLayer mesh1).transmissivity ⟨2022, 100, 720⟩ =
        (foliageLayer mesh1).transmissivity ⟨2023, 100, 0⟩) ∧
    foliageTransmissivity 59 = 0.5 ∧
    foliageTransmissivity 335 = 0.5 ∧
    foliageTransmissivity 100 = 0.5 + ((100 : ℚ) - 59) / 92 * (0.05 - 0.5) ∧
    foliageTransmissivity 200 = 0.05 ∧
    foliageTransmissivity 300 = 0.05 + ((300 : ℚ) - 243) / 91 * (0.5 - 0.05) ∧
    foliageTransmissivity 61 < foliageTransmissivity 60 ∧
    foliageTransmissivity 250 < foliageTransmissivity 251 ∧
    (0.05 ≤ foliageTransmissivity 100 ∧ foliageTransmissivity 100 ≤ 0.5) := by
  refine ⟨C5_foliage_transmissivity.1 modelF mesh1,
    C5_foliage_transmissivity.2.1 mesh1 t0,
    ⟨rfl, C5_foliage_transmissivity.2.2.1 mesh1 _ _ rfl⟩,
    C5_foliage_transmissivity.2.2.2.1 59 (by norm_num),
    C5_foliage_transmissivity.2.2.2.2.1 335 (by norm_num),
    C5_foliage_transmissivity.2.2.2.2.2.1 100 (by norm_num) (by norm_num),
    C5_foliage_transmissivity.2.2.2.2.2.2.1 200 (by norm_num) (by norm_num),
    C5_foliage_transmissivity.2.2.2.2.2.2.2.1 300 (by norm_num) (by norm_num),
    C5_foliage_transmissivity.2.2.2.2.2.2.2.2.1 60 61 (by norm_num) (by norm_num) (by norm_num),
    C5_foliage_transmissivity.2.2.2.2.2.2.2.2.2.1 250 251 (by norm_num) (by norm_num)
      (by norm_num),
    C5_foliage_transmissivity.2.2.2.2.2.2.2.2.2.2 100⟩

/-- C6: GlobalIntensity is exactly 0 below the horizon and otherwise
equals (0.1 + light) times the Kasten-Young and Meinel direct component;
the ambient 0.1 term is present for every altitude at or above 0
independent of the light (occlusion) value. -/
theorem C6_globalIntensity_formula :
    (∀ altitude light elevationFeet : ℝ,
      GlobalIntensity altitude light elevationFeet =
        specGlobalIntensity altitude light elevationFeet) ∧
    (∀ altitude light elevationFeet : ℝ, altitude < 0 →
      GlobalIntensity altitude light elevationFeet = 0) ∧
    (∀ altitude light elevationFeet : ℝ, 0 ≤ altitude →
      GlobalIntensity altitude light elevationFeet =
        (0.1 + light) * specIDirect (specAirMass (specZenith altitude))
          (elevationFeet * 0.0003048)) ∧
    (∀ altitude light elevationFeet : ℝ, 0 ≤ altitude →
      GlobalIntensity altitude light elevationFeet =
        0.1 * specIDirect (specAirMass (specZenith altitude)) (elevationFeet * 0.0003048) +
          light * specIDirect (specAirMass (specZenith altitude)) (elevationFeet * 0.0003048)) := by
  have hmain : ∀ altitude light elevationFeet : ℝ, 0 ≤ altitude →
      GlobalIntensity altitude light elevationFeet =
        (0.1 + light) * specIDirect (specAirMass (specZenith altitude))
          (elevationFeet * 0.0003048) := by
    intro a l e ha
    rw [GlobalIntensity, if_neg (not_lt.mpr ha)]
    rfl
  refine ⟨?_, ?_, hmain, ?_⟩
  · intro a l e
    rw [GlobalIntensity, specGlobalIntensity]
    split_ifs with h
    · rfl
    · rfl
  · intro a l e h
    rw [GlobalIntensity, if_pos h]
  · intro a l e h
    rw [hmain a l e h]
    ring

/-- Witness for C6 at altitude -1 (below horizon) and altitude 0. -/
theorem C6_globalIntensity_formula_witness :
    GlobalIntensity 0 1 200 = specGlobalIntensity 0 1 200 ∧
    ((-1 : ℝ) < 0 ∧ GlobalIntensity (-1) 1 200 = 0) ∧
    ((0 : ℝ) ≤ 0 ∧ GlobalIntensity 0 1 200 =
      (0.1 + 1) * specIDirect (specAirMass (specZenith 0)) (200 * 0.0003048)) ∧
    GlobalIntensity 0 1 200 =
      0.1 * specIDirect (specAirMass (specZenith 0)) (200 * 0.0003048) +
        1 * specIDirect (specAirMass (specZenith 0)) (200 * 0.0003048) :=
  ⟨C6_globalIntensity_formula.1 0 1 200,
    ⟨by norm_num, C6_globalIntensity_formula.2.1 (-1) 1 200 (by norm_num)⟩,
    ⟨le_refl 0, C6_globalIntensity_formula.2.2.1 0 1 200 (le_refl 0)⟩,
    C6_globalIntensity_formula.2.2.2 0 1 200 (le_refl 0)⟩

/-- Counterexample to C7: a building-only model and a foliage-only model
over the same mesh derive the same cache key, yet computeSunLight gives
different SunLight sequences for them, so key equality does not imply
semantic equality of the query's inputs. -/
theorem C7_counterexample :
    IntensityOverYearKey modelB1 origin0 [t0] = IntensityOverYearKey modelF origin0 [t0] ∧
    computeSunLight eph45 mkRayUp modelB1 origin0 [t0] ≠
      computeSunLight eph45 mkRayUp modelF origin0 [t0] := by
  constructor
  · rfl
  · intro h
    have hmap := congrArg (List.map SunLight.Light) h
    have h1 : (computeSunLight eph45 mkRayUp modelB1 origin0 [t0]).map SunLight.Light
        = [0] := by
      norm_num [computeSunLight, sunLightAt, layerStep, modelB1, buildingLayer, eph45, mkRayUp,
        origin0, Ray.IntersectMesh, meshStep, Ray.IntersectTriangle, detOf, uOf, vOf, tOf,
        dot, cross, vsub, edge1, edge2, hVec, sVec, qVec, triAt, mesh1, epsilon]
    have h2 : (computeSunLight eph45 mkRayUp modelF origin0 [t0]).map SunLight.Light
        = [551 / 1840] := by
      norm_num [computeSunLight, sunLightAt, layerStep, modelF, foliageLayer,
        foliageTransmissivity, t0, eph45, mkRayUp, origin0, Ray.IntersectMesh, meshStep,
        Ray.IntersectTriangle, detOf, uOf, vOf, tOf, dot, cross, vsub, edge1, edge2, hVec,
        sVec, qVec, triAt, mesh1, epsilon]
    rw [h1, h2] at hmap
    norm_num at hmap

/-- C7 amended: the key derived by IntensityOverYear depends only on the
layer meshes, the latitude and the longitude besides the query's test
point and times; models agreeing on those receive equal keys even when
their building/foliage classification or transmissivity functions
differ (and, per the counterexample, can then compute different
SunLight sequences under the same key). -/
theorem C7_key_ignores_classification
    (m1 m2 : ShadeModel) (testPos : Vec3) (times : List GoTime)
    (hmesh : m1.layers.map (fun l => l.mesh) = m2.layers.map (fun l => l.mesh))
    (hlat : m1.lat = m2.lat) (hlon : m1.lon = m2.lon) :
    IntensityOverYearKey m1 testPos times = IntensityOverYearKey m2 testPos times := by
  rw [IntensityOverYearKey, IntensityOverYearKey, hmesh, hlat, hlon]

/-- Witness for the amended C7 at the counterexample's two models. -/
theorem C7_key_ignores_classification_witness :
    modelB1.layers.map (fun l => l.mesh) = modelF.layers.map (fun l => l.mesh) ∧
    modelB1.lat = modelF.lat ∧ modelB1.lon = modelF.lon ∧
    IntensityOverYearKey modelB1 origin0 [t0] = IntensityOverYearKey modelF origin0 [t0] :=
  ⟨rfl, rfl, rfl, C7_key_ignores_classification modelB1 modelF origin0 [t0] rfl rfl rfl⟩

/-- C8: Load never raises — it is a total function into (value, found) —
and found is true exactly when the open and the decode both succeed; on
any failure it returns found = false with no value; and a value just
saved is returned with found = true when the decoder inverts the
encoder. -/
theorem C8_load_contract {β α : Type} (ck : CacheKey) (fs : String → OpenResult β)
    (decode : β → Option α) :
    ((ck.Load fs decode).2 = true ↔
      ∃ blob v, fs ck.path = .ok blob ∧ decode blob = some v) ∧
    (∀ blob v, fs ck.path = .ok blob → decode blob = some v →
      ck.Load fs decode = (some v, true)) ∧
    ((ck.Load fs decode).2 = false → (ck.Load fs decode).1 = none) ∧
    ((∃ v, ck.Load fs decode = (some v, true)) ∨ ck.Load fs decode = (none, false)) ∧
    (∀ (encode : α → β) (val : α), decode (encode val) = some val →
      ck.Load (ck.Save fs encode val) decode = (some val, true)) := by
  refine ⟨?_, ?_, ?_, ?_, ?_⟩
  · rcases hfs : fs ck.path with _ | _ | blob
    · simp [CacheKey.Load, hfs]
    · simp [CacheKey.Load, hfs]
    · rcases hdec : decode blob with _ | v
      · simp [CacheKey.Load, hfs, hdec]
      · simp [CacheKey.Load, hfs, hdec]
  · intro blob v hfs hdec
    simp [CacheKey.Load, hfs, hdec]
  · rcases hfs : fs ck.path with _ | _ | blob
    · simp [CacheKey.Load, hfs]
    · simp [CacheKey.Load, hfs]
    · rcases hdec : decode blob with _ | v
      · simp [CacheKey.Load, hfs, hdec]
      · simp [CacheKey.Load, hfs, hdec]
  · rcases hfs : fs ck.path with _ | _ | blob
    · simp [CacheKey.Load, hfs]
    · simp [CacheKey.Load, hfs]
    · rcases hdec : decode blob with _ | v
      · simp [CacheKey.Load, hfs, hdec]
      · simp [CacheKey.Load, hfs, hdec]
  · intro encode val hroundtrip
    simp [CacheKey.Load, CacheKey.Save, hroundtrip]

/-- Witness for C8 with a one-entry store over blobs of naturals. -/
theorem C8_load_contract_witness :
    ((⟨"k"⟩ : CacheKey).Load (fun _ => OpenResult.missing) (fun b : List ℕ => b.head?)
      = (none, false)) ∧
    ((fun b : List ℕ => b.head?) ((fun n : ℕ => [n]) 5) = some 5 ∧
      (⟨"k"⟩ : CacheKey).Load
        ((⟨"k"⟩ : CacheKey).Save (fun _ => OpenResult.missing) (fun n : ℕ => [n]) 5)
        (fun b : List ℕ => b.head?) = (some 5, true)) := by
  constructor
  · have h := (C8_load_contract (⟨"k"⟩ : CacheKey) (fun _ => OpenResult.missing)
      (fun b : List ℕ => b.head?)).2.2.2.1
    rcases h with ⟨v, hv⟩ | h
    · rw [CacheKey.Load] at hv
      simp at hv
    · exact h
  · refine ⟨rfl, ?_⟩
    exact (C8_load_contract (⟨"k"⟩ : CacheKey) (fun _ => OpenResult.missing)
      (fun b : List ℕ => b.head?)).2.2.2.2 (fun n : ℕ => [n]) 5 rfl

/-- Counterexample to C9 as stated: on badSTLInput the loader merges the
minus-zero and plus-zero vertices although their bits differ, and gives
the two bit-identical NaN vertices different indices and two
bit-identical vertex-array entries. -/
theorem C9_counterexample : ¬ BitWeldSpec badSTLInput := by
  rw [BitWeldSpec]
  decide

theorem f32Eq_clean {a b : ℕ} (ha : cleanBits a = true) (hb : cleanBits b = true) :
    f32Eq a b = true ↔ a = b := by
  rw [cleanBits] at ha hb
  simp only [Bool.and_eq_true, decide_eq_true_eq, Bool.not_eq_true', bne_iff_ne] at ha hb
  obtain ⟨⟨ha1, ha2⟩, ha3⟩ := ha
  obtain ⟨⟨hb1, hb2⟩, hb3⟩ := hb
  rw [f32Eq, ha2, hb2]
  simp only [Bool.not_false, Bool.true_and, Bool.or_eq_true, beq_iff_eq, Bool.and_eq_true,
    isZero32]
  constructor
  · rintro (h | ⟨h1, h2⟩)
    · exact h
    · omega
  · intro h
    exact Or.inl h

theorem vertEq_clean {v w : Vert32} (hv : cleanVert v = true) (hw : cleanVert w = true) :
    vertEq v w = true ↔ v = w := by
  rcases v with ⟨vx, vy, vz⟩
  rcases w with ⟨wx, wy, wz⟩
  rw [cleanVert] at hv hw
  simp only [Bool.and_eq_true] at hv hw
  rw [vertEq]
  simp only [Bool.and_eq_true, Vert32.mk.injEq]
  rw [f32Eq_clean hv.1.1 hw.1.1, f32Eq_clean hv.1.2 hw.1.2, f32Eq_clean hv.2 hw.2]
  tauto

theorem getD_append_left {α : Type} (l1 l2 : List α) (i : ℕ) (d : α) (h : i < l1.length) :
    (l1 ++ l2).getD i d = l1.getD i d := by
  induction l1 generalizing i with
  | nil => simp at h
  | cons x l1 ih =>
    cases i with
    | zero => rfl
    | succ i =>
      simp only [List.cons_append, List.getD_cons_succ]
      exact ih i (by simpa using h)

theorem getD_append_mid {α : Type} (l1 l2 : List α) (x : α) (d : α) :
    (l1 ++ x :: l2).getD l1.length d = x := by
  induction l1 with
  | nil => rfl
  | cons y l1 ih => simpa using ih

theorem getD_mem {α : Type} (l : List α) (i : ℕ) (d : α) (h : i < l.length) :
    l.getD i d ∈ l := by
  induction l generalizing i with
  | nil => simp at h
  | cons x l ih =>
    cases i with
    | zero => exact List.mem_cons_self x l
    | succ i =>
      simp only [List.getD_cons_succ]
      exact List.mem_cons_of_mem x (ih i (by simpa using h))

theorem nodup_getD_inj {α : Type} (l : List α) (d : α) (hnd : l.Nodup) (i j : ℕ)
    (hi : i < l.length) (hj : j < l.length) (h : l.getD i d = l.getD j d) : i = j := by
  induction l generalizing i j with
  | nil => simp at hi
  | cons x l ih =>
    rw [List.nodup_cons] at hnd
    cases i with
    | zero =>
      cases j with
      | zero => rfl
      | succ j =>
        rw [List.getD_cons_zero, List.getD_cons_succ] at h
        exact absurd (h ▸ getD_mem l j d (by simpa using hj)) hnd.1
    | succ i =>
      cases j with
      | zero =>
        rw [List.getD_cons_succ, List.getD_cons_zero] at h
        exact absurd (h ▸ getD_mem l i d (by simpa using hi)) hnd.1
      | succ j =>
        rw [List.getD_cons_succ, List.getD_cons_succ] at h
        exact congrArg Nat.succ (ih hnd.2 i j (by simpa using hi) (by simpa using hj) h)

theorem findVert_some (verts : List Vert32) (v : Vert32) (i : ℕ)
    (h : findVert verts v = some i) :
    i < verts.length ∧ vertEq (verts.getD i ⟨0, 0, 0⟩) v = true := by
  induction verts generalizing i with
  | nil => exact Option.noConfusion h
  | cons w ws ih =>
    rw [findVert] at h
    by_cases hw : vertEq w v
    · rw [if_pos hw] at h
      obtain rfl : i = 0 := (Option.some.injEq _ _ ▸ h).symm
      exact ⟨by simp, hw⟩
    · rw [if_neg hw] at h
      cases hf : findVert ws v with
      | none =>
        rw [hf] at h
        exact Option.noConfusion h
      | some j =>
        rw [hf] at h
        simp only [Option.map_some'] at h
        obtain rfl : i = j + 1 := (Option.some.injEq _ _ ▸ h).symm
        obtain ⟨hb, he⟩ := ih j hf
        exact ⟨by simpa using hb, he⟩

theorem findVert_none (verts : List Vert32) (v : Vert32) (h : findVert verts v = none) :
    ∀ w ∈ verts, vertEq w v = false := by
  induction verts with
  | nil => intro w hw; simp at hw
  | cons x ws ih =>
    rw [findVert] at h
    by_cases hx : vertEq x v
    · rw [if_pos hx] at h
      exact Option.noConfusion h
    · rw [if_neg hx] at h
      intro w hw
      rcases List.mem_cons.mp hw with rfl | hw2
      · simpa using hx
      · cases hf : findVert ws v with
        | none => exact ih hf w hw2
        | some j =>
          rw [hf] at h
          simp at h

theorem mapOfFrom_append (n : ℕ) (l : List Vert32) (v : Vert32) :
    mapOfFrom n (l ++ [v]) = mapOfFrom n l ++ [(v, n + l.length)] := by
  induction l generalizing n with
  | nil => simp [mapOfFrom]
  | cons x l ih =>
    show (x, n) :: mapOfFrom (n + 1) (l ++ [v]) =
      (x, n) :: mapOfFrom (n + 1) l ++ [(v, n + (l.length + 1))]
    rw [ih (n + 1), List.cons_append]
    have : n + 1 + l.length = n + (l.length + 1) := by omega
    rw [this]

theorem lookup_mapOfFrom (verts : List Vert32) (v : Vert32) : ∀ n : ℕ,
    lookupVert (mapOfFrom n verts) v = (findVert verts v).map (· + n) := by
  induction verts with
  | nil => intro n; rfl
  | cons w ws ih =>
    intro n
    rw [mapOfFrom, findVert, lookupVert]
    by_cases hw : vertEq w v
    · rw [List.find?_cons_of_pos _ (by simpa using hw), if_pos hw]
      simp
    · rw [List.find?_cons_of_neg _ (by simpa using hw), if_neg hw]
      have := ih (n + 1)
      rw [lookupVert] at this
      rw [this]
      cases findVert ws v with
      | none => rfl
      | some j =>
        simp only [Option.map_some']
        rw [Option.some.injEq]
        omega

theorem weldList_pure (vs : List Vert32) : ∀ verts : List Vert32,
    (weldList ⟨verts, mapOfFrom 0 verts⟩ vs).1.verts = (weldPure verts vs).1 ∧
    (weldList ⟨verts, mapOfFrom 0 verts⟩ vs).1.vertMap = mapOfFrom 0 (weldPure verts vs).1 ∧
    (weldList ⟨verts, mapOfFrom 0 verts⟩ vs).2 = (weldPure verts vs).2 := by
  induction vs with
  | nil => exact fun verts => ⟨rfl, rfl, rfl⟩
  | cons v vs ih =>
    intro verts
    have hlook : lookupVert (mapOfFrom 0 verts) v = (findVert verts v).map (· + 0) :=
      lookup_mapOfFrom verts v 0
    cases hf : findVert verts v with
    | some i =>
      have haddv : addVert ⟨verts, mapOfFrom 0 verts⟩ v = (⟨verts, mapOfFrom 0 verts⟩, i) := by
        rw [addVert, hlook, hf]
        simp
      obtain ⟨h1, h2, h3⟩ := ih verts
      simp only [weldList, weldPure, haddv, hf]
      exact ⟨h1, h2, by rw [h3]⟩
    | none =>
      have haddv : addVert ⟨verts, mapOfFrom 0 verts⟩ v =
          (⟨verts ++ [v], mapOfFrom 0 (verts ++ [v])⟩, verts.length) := by
        rw [addVert, hlook, hf]
        simp only [Option.map_none']
        rw [mapOfFrom_append]
        simp
      obtain ⟨h1, h2, h3⟩ := ih (verts ++ [v])
      simp only [weldList, weldPure, haddv, hf]
      exact ⟨h1, h2, by rw [h3]⟩

theorem weldPure_spec (vs : List Vert32) : ∀ verts : List Vert32,
    (∀ w ∈ verts, cleanVert w = true) → (∀ v ∈ vs, cleanVert v = true) → verts.Nodup →
    (∃ rest, (weldPure verts vs).1 = verts ++ rest) ∧
    (weldPure verts vs).2.length = vs.length ∧
    (∀ w ∈ (weldPure verts vs).1, cleanVert w = true) ∧
    (weldPure verts vs).1.Nodup ∧
    (∀ p ∈ vs.zip (weldPure verts vs).2,
      p.2 < (weldPure verts vs).1.length ∧ (weldPure verts vs).1.getD p.2 ⟨0, 0, 0⟩ = p.1) := by
  induction vs with
  | nil =>
    intro verts hverts _ hnd
    refine ⟨⟨[], by simp [weldPure]⟩, by simp [weldPure], ?_, ?_, by simp [weldPure]⟩
    · simpa [weldPure] using hverts
    · simpa [weldPure] using hnd
  | cons v vs ih =>
    intro verts hverts hcons hnd
    have hv : cleanVert v = true := hcons v (List.mem_cons_self v vs)
    have hvs : ∀ x ∈ vs, cleanVert x = true := fun x hx => hcons x (List.mem_cons_of_mem v hx)
    cases hf : findVert verts v with
    | some i =>
      obtain ⟨hib, hieq⟩ := findVert_some verts v i hf
      have hentry_clean : cleanVert (verts.getD i ⟨0, 0, 0⟩) = true :=
        hverts _ (getD_mem verts i ⟨0, 0, 0⟩ hib)
      have hentry : verts.getD i ⟨0, 0, 0⟩ = v := (vertEq_clean hentry_clean hv).mp hieq
      obtain ⟨⟨rest, hrest⟩, hlen, hclean, hnodup, hzip⟩ := ih verts hverts hvs hnd
      simp only [weldPure, hf]
      refine ⟨⟨rest, hrest⟩, by simp [hlen], hclean, hnodup, ?_⟩
      intro p hp
      rw [List.zip_cons_cons] at hp
      rcases List.mem_cons.mp hp with rfl | hp2
      · constructor
        · rw [hrest, List.length_append]
          omega
        · rw [hrest, getD_append_left verts rest i _ hib, hentry]
      · exact hzip p hp2
    | none =>
      have hfresh := findVert_none verts v hf
      have hnotmem : v ∉ verts := by
        intro hmem
        have h1 := hfresh v hmem
        have h2 := (vertEq_clean hv hv).mpr rfl
        rw [h1] at h2
        exact Bool.noConfusion h2
      have hnd' : (verts ++ [v]).Nodup := by
        rw [List.nodup_append]
        exact ⟨hnd, List.nodup_singleton v, by simpa using hnotmem⟩
      have hverts' : ∀ w ∈ verts ++ [v], cleanVert w = true := by
        intro w hw
        rcases List.mem_append.mp hw with hw1 | hw2
        · exact hverts w hw1
        · rw [List.mem_singleton.mp hw2]
          exact hv
      obtain ⟨⟨rest, hrest⟩, hlen, hclean, hnodup, hzip⟩ := ih (verts ++ [v]) hverts' hvs hnd'
      simp only [weldPure, hf]
      refine ⟨⟨v :: rest, by rw [hrest, List.append_assoc, List.singleton_append]⟩,
        by simp [hlen], hclean, hnodup, ?_⟩
      intro p hp
      rw [List.zip_cons_cons] at hp
      rcases List.mem_cons.mp hp with rfl | hp2
      · constructor
        · rw [hrest, List.length_append, List.length_append]
          simp
          omega
        · rw [hrest, getD_append_left (verts ++ [v]) rest verts.length _ (by simp),
            getD_append_mid verts [] v]
      · exact hzip p hp2

theorem addVert_chain (s : WeldState) (t : STLTri) :
    addTri s t = ((addVert (addVert (addVert s t.a).1 t.b).1 t.c).1,
      ((addVert s t.a).2, (addVert (addVert s t.a).1 t.b).2,
        (addVert (addVert (addVert s t.a).1 t.b).1 t.c).2)) := rfl

theorem readTris_flat (input : List STLTri) : ∀ s : WeldState,
    (readTris s input).1 = (weldList s (flatVerts input)).1 ∧
    flatIdxs (readTris s input).2 = (weldList s (flatVerts input)).2 := by
  induction input with
  | nil => exact fun s => ⟨rfl, rfl⟩
  | cons t ts ih =>
    intro s
    obtain ⟨h1, h2⟩ := ih (addVert (addVert (addVert s t.a).1 t.b).1 t.c).1
    simp only [readTris, addTri, flatVerts, flatIdxs, weldList]
    exact ⟨h1, by rw [h2]⟩

theorem flatVerts_clean (input : List STLTri)
    (hclean : ∀ t ∈ input, cleanVert t.a = true ∧ cleanVert t.b = true ∧ cleanVert t.c = true) :
    ∀ v ∈ flatVerts input, cleanVert v = true := by
  induction input with
  | nil => intro v hv; simp [flatVerts] at hv
  | cons t ts ih =>
    intro v hv
    have ht := hclean t (List.mem_cons_self t ts)
    rw [flatVerts] at hv
    rcases List.mem_cons.mp hv with rfl | hv
    · exact ht.1
    rcases List.mem_cons.mp hv with rfl | hv
    · exact ht.2.1
    rcases List.mem_cons.mp hv with rfl | hv
    · exact ht.2.2
    · exact ih (fun u hu => hclean u (List.mem_cons_of_mem t hu)) v hv

theorem readSTL_pure (input : List STLTri) :
    (ReadSTL input).Verts = (weldPure [] (flatVerts input)).1 ∧
    flatIdxs (ReadSTL input).Tris = (weldPure [] (flatVerts input)).2 := by
  obtain ⟨h1, h2⟩ := readTris_flat input ⟨[], []⟩
  obtain ⟨g1, g2, g3⟩ := weldList_pure (flatVerts input) []
  constructor
  · show (readTris ⟨[], []⟩ input).1.verts = _
    rw [h1]
    exact g1
  · show flatIdxs (readTris ⟨[], []⟩ input).2 = _
    rw [h2]
    exact g3

/-- C9 amended: on inputs whose coordinates are well-formed binary32
patterns that are neither NaN nor negative zero, ReadSTL welds two input
vertex occurrences into the same index exactly when they are bit-for-bit
equal, produces a vertex array with no two bit-identical entries, and
each output index refers to the entry holding its occurrence's original
coordinates.  (Outside that input class the Go map's float32 equality
deviates from bit equality, see the counterexample.) -/
theorem C9_weld_contract (input : List STLTri)
    (hclean : ∀ t ∈ input, cleanVert t.a = true ∧ cleanVert t.b = true ∧ cleanVert t.c = true) :
    (flatIdxs (ReadSTL input).Tris).length = (flatVerts input).length ∧
    (ReadSTL input).Verts.Nodup ∧
    (∀ p ∈ (flatVerts input).zip (flatIdxs (ReadSTL input).Tris),
      p.2 < (ReadSTL input).Verts.length ∧ (ReadSTL input).Verts.getD p.2 ⟨0, 0, 0⟩ = p.1) ∧
    (∀ p ∈ (flatVerts input).zip (flatIdxs (ReadSTL input).Tris),
      ∀ q ∈ (flatVerts input).zip (flatIdxs (ReadSTL input).Tris),
        (p.2 = q.2 ↔ p.1 = q.1)) := by
  obtain ⟨hV, hI⟩ := readSTL_pure input
  obtain ⟨_, hlen, _, hnodup, hzip⟩ :=
    weldPure_spec (flatVerts input) [] (by simp) (flatVerts_clean input hclean) List.nodup_nil
  rw [hV, hI]
  refine ⟨hlen, hnodup, hzip, ?_⟩
  intro p hp q hq
  obtain ⟨hpb, hpe⟩ := hzip p hp
  obtain ⟨hqb, hqe⟩ := hzip q hq
  constructor
  · intro h
    rw [← hpe, ← hqe, h]
  · intro h
    exact nodup_getD_inj _ _ hnodup p.2 q.2 hpb hqb (by rw [hpe, hqe, h])

/-- Witness for the amended C9 at a concrete clean input with a repeated
vertex. -/
theorem C9_weld_contract_witness :
    (∀ t ∈ goodSTLInput,
      cleanVert t.a = true ∧ cleanVert t.b = true ∧ cleanVert t.c = true) ∧
    ((flatIdxs (ReadSTL goodSTLInput).Tris).length = (flatVerts goodSTLInput).length ∧
      (ReadSTL goodSTLInput).Verts.Nodup ∧
      (∀ p ∈ (flatVerts goodSTLInput).zip (flatIdxs (ReadSTL goodSTLInput).Tris),
        p.2 < (ReadSTL goodSTLInput).Verts.length ∧
          (ReadSTL goodSTLInput).Verts.getD p.2 ⟨0, 0, 0⟩ = p.1) ∧
      (∀ p ∈ (flatVerts goodSTLInput).zip (flatIdxs (ReadSTL goodSTLInput).Tris),
        ∀ q ∈ (flatVerts goodSTLInput).zip (flatIdxs (ReadSTL goodSTLInput).Tris),
          (p.2 = q.2 ↔ p.1 = q.1))) := by
  have hclean : ∀ t ∈ goodSTLInput,
      cleanVert t.a = true ∧ cleanVert t.b = true ∧ cleanVert t.c = true := by decide
  exact ⟨hclean, C9_weld_contract goodSTLInput hclean⟩

end Shade
